import Mathlib

/-!
Verification of the signing / signature-verification core of iyzico-js.

The TypeScript sources `src/lib/signature.ts`, `src/lib/auth.ts`,
`src/core/http.ts` (src/unnamed/part_001), `src/lib/crypto.ts`
(src/unnamed/part_002) and `src/lib/format.ts` (src/unnamed/part_003) are
embedded shallowly below.  The HMAC-SHA256 digest (`hmacSha256Hex` in
crypto.ts delegates to the platform's `crypto.subtle`) is kept abstract:
every operation that hashes takes the digest function
`hmac : String → String → String` as an explicit argument, so the theorems
quantify over it.  JavaScript platform builtins (`btoa`,
`String.prototype.indexOf`, `new URL`) are likewise modelled.
-/

namespace IyzicoJS

-- ─── src/lib/format.ts (src/unnamed/part_003) ───────────────────

/-- The scanning loop shared by `stripTrailingZeros` and `formatPrice` in
`src/unnamed/part_003`: `while (i > 0 && str[i] === '0') i--`, returning
the final value of `i` when started at the given index.  Every index read
is in range in the call sites, so the `getD` default is never used. -/
def trailingZeroStop (str : List Char) : Nat → Nat
  | 0 => 0
  | j + 1 => if str.getD (j + 1) ' ' = '0' then trailingZeroStop str j else j + 1

/-- `stripTrailingZeros` from `src/unnamed/part_003` (format.ts): return
the string unchanged when it has no `'.'`; otherwise run the trailing-zero
loop from the last index and slice before the stop position when it holds
the decimal point, after it otherwise.  `String(value)` for a number input
is its canonical decimal rendering, so the argument is a `String` here;
`str.slice(0, k)` is `List.take k`. -/
def stripTrailingZeros (s : String) : String :=
  if '.' ∈ s.data then
    if s.data.getD (trailingZeroStop s.data (s.data.length - 1)) ' ' = '.' then
      ⟨s.data.take (trailingZeroStop s.data (s.data.length - 1))⟩
    else ⟨s.data.take (trailingZeroStop s.data (s.data.length - 1) + 1)⟩
  else s

/-- `formatPrice` from `src/unnamed/part_003` (format.ts): append `".0"`
when the string has no `'.'`; otherwise run the same trailing-zero loop
and slice with `slice(0, i + 2)` when the stop position holds the decimal
point (keeping one trailing zero — note that `slice` clamps at the string
end, so an input already ending in `'.'` comes back unchanged), and with
`slice(0, i + 1)` otherwise. -/
def formatPrice (s : String) : String :=
  if '.' ∈ s.data then
    if s.data.getD (trailingZeroStop s.data (s.data.length - 1)) ' ' = '.' then
      ⟨s.data.take (trailingZeroStop s.data (s.data.length - 1) + 2)⟩
    else ⟨s.data.take (trailingZeroStop s.data (s.data.length - 1) + 1)⟩
  else s ++ ".0"

/-- Proof device (not code): the list with its maximal run of trailing
`'0'` characters removed.  The lemmas below relate the index loop of
`src/unnamed/part_003` to this formulation, which is easier to reason
about. -/
def dropTrailingZerosL (l : List Char) : List Char :=
  ((l.reverse).dropWhile (fun c => c == '0')).reverse

-- ─── src/lib/crypto.ts (src/unnamed/part_002) ───────────────────

/-- `timingSafeEqual` from `src/unnamed/part_002` (crypto.ts): false if
the lengths differ, otherwise XOR every character position into an
OR-accumulator (`result |= a.charCodeAt(i) ^ b.charCodeAt(i)`) and compare
the accumulator with zero.  The `for` loop over the common length is a
fold over the zipped characters; `charCodeAt` is modelled by the code
point `Char.toNat` (they agree on the hex digests and ASCII strings this
code compares). -/
def timingSafeEqual (a b : String) : Bool :=
  if a.length = b.length then
    ((a.data.zip b.data).foldl (fun acc p => acc ||| (p.1.toNat ^^^ p.2.toNat)) 0) == 0
  else false

-- ─── src/lib/signature.ts (response verifiers) ──────────────────

/-- `join(':')` of JavaScript arrays, as used by `joinParams`. -/
def joinColon : List String → String
  | [] => ""
  | [x] => x
  | x :: y :: rest => x ++ ":" ++ joinColon (y :: rest)

/-- Index-carrying worker for `joinParams`: `undefined`/`null` values map
to the empty string, values at price positions go through
`stripTrailingZeros`, all others are used as-is. -/
def joinParamsAux (priceIndices : List Nat) : Nat → List (Option String) → List String
  | _, [] => []
  | i, v :: rest =>
    (match v with
      | none => ""
      | some s => if i ∈ priceIndices then stripTrailingZeros s else s)
      :: joinParamsAux priceIndices (i + 1) rest

/-- `joinParams` from `src/lib/signature.ts`: map each value (empty string
for `null`/`undefined`, trailing-zero stripping at price indices) and join
with `':'`.  Number-valued fields enter as their canonical JavaScript
decimal rendering (`String(v)`), so values are `Option String` here. -/
def joinParams (values : List (Option String)) (priceIndices : List Nat) : String :=
  joinColon (joinParamsAux priceIndices 0 values)

/-- The response fields read by `verifyPaymentSignature`
(`src/lib/signature.ts`).  `paidPrice` and `price` are numbers in the
TypeScript interface; they are represented by their canonical JavaScript
decimal rendering. -/
structure PaymentResponse where
  paymentId : String
  currency : String
  basketId : Option String
  conversationId : Option String
  paidPrice : String
  price : String
  signature : String

/-- `verifyPaymentSignature` from `src/lib/signature.ts` (also the alias
`verifyThreeDSAuthSignature`), with the digest primitive passed in as
`hmac`. -/
def verifyPaymentSignature (hmac : String → String → String) (secretKey : String)
    (r : PaymentResponse) : Bool :=
  let message := joinParams
    [some r.paymentId, some r.currency, r.basketId, r.conversationId,
      some r.paidPrice, some r.price] [4, 5]
  timingSafeEqual (hmac secretKey message) r.signature

-- ─── src/lib/auth.ts ────────────────────────────────────────────

/-- The standard base64 alphabet. -/
def base64Alphabet : String :=
  "ABCDEFGHIJKLMNOPQRSTUVWXYZabcdefghijklmnopqrstuvwxyz0123456789+/"

/-- Character of the base64 alphabet at index `n`. -/
def b64c (n : Nat) : Char := base64Alphabet.data.getD n 'A'

/-- RFC 4648 base64 encoding of a byte list, with `'='` padding. -/
def base64Encode : List Nat → String
  | [] => ""
  | [a] => ⟨[b64c (a / 4), b64c (a % 4 * 16), '=', '=']⟩
  | [a, b] => ⟨[b64c (a / 4), b64c (a % 4 * 16 + b / 16), b64c (b % 16 * 4), '=']⟩
  | a :: b :: c :: rest =>
    String.mk [b64c (a / 4), b64c (a % 4 * 16 + b / 16), b64c (b % 16 * 4 + c / 64), b64c (c % 64)]
      ++ base64Encode rest

/-- Modelled platform builtin: JavaScript `btoa`, which base64-encodes the
code points of a string (all inputs produced by `generateAuthHeader` are
ASCII, where this agrees with the Latin-1 reading `btoa` uses). -/
def btoa (s : String) : String := base64Encode (s.data.map Char.toNat)

/-- `generateAuthHeader` from `src/lib/auth.ts`, with the digest primitive
passed in as `hmac`. -/
def generateAuthHeader (hmac : String → String → String)
    (apiKey secretKey randomKey uriPath : String) (body : Option String) : String :=
  let payload := match body with
    | some b => uriPath ++ b
    | none => uriPath
  let signatureHex := hmac secretKey (randomKey ++ payload)
  let authString :=
    "apiKey:" ++ apiKey ++ "&randomKey:" ++ randomKey ++ "&signature:" ++ signatureHex
  "IYZWSv2 " ++ btoa authString

-- ─── src/lib/signature.ts (webhooks) ────────────────────────────

/-- Runtime view of a `WebhookPayload` object (`src/types/webhook.ts`):
each key that any of the three payload interfaces may carry is an optional
field, so that the `'key' in payload` shape checks of `buildMessage` can be
expressed as `isSome`. -/
structure WebhookPayload where
  paymentId : Option String
  paymentConversationId : Option String
  status : Option String
  iyziEventType : Option String
  merchantId : Option String
  iyziPaymentId : Option String
  token : Option String
  subscriptionReferenceCode : Option String
  orderReferenceCode : Option String
  customerReferenceCode : Option String

/-- JavaScript string coercion of a possibly-missing property: reading an
absent key yields `undefined`, which string concatenation renders as
`"undefined"`. -/
def jsStr : Option String → String
  | some s => s
  | none => "undefined"

/-- `buildMessage` from `src/lib/signature.ts`: plain concatenation, shape
selected by key presence; the subscription shape needs a truthy
`merchantId` (in JavaScript the empty string is falsy, exactly like an
absent argument). -/
def buildMessage (secretKey : String) (p : WebhookPayload)
    (merchantId : Option String) : Option String :=
  if p.subscriptionReferenceCode.isSome then
    match merchantId with
    | none => none
    | some m =>
      if m = "" then none
      else some (m ++ secretKey ++ jsStr p.iyziEventType ++ jsStr p.subscriptionReferenceCode
        ++ jsStr p.orderReferenceCode ++ jsStr p.customerReferenceCode)
  else if p.token.isSome then
    some (secretKey ++ jsStr p.iyziEventType ++ jsStr p.iyziPaymentId ++ jsStr p.token
      ++ jsStr p.paymentConversationId ++ jsStr p.status)
  else
    some (secretKey ++ jsStr p.iyziEventType ++ jsStr p.paymentId
      ++ jsStr p.paymentConversationId ++ jsStr p.status)

/-- `verifyWebhookSignature` from `src/lib/signature.ts`, with the digest
primitive passed in as `hmac`. -/
def verifyWebhookSignature (hmac : String → String → String) (secretKey : String)
    (p : WebhookPayload) (signature : String) (merchantId : Option String) : Bool :=
  if signature = "" then false
  else
    match buildMessage secretKey p merchantId with
    | none => false
    | some m => timingSafeEqual (hmac secretKey m) signature

/-- `generateWebhookTestSignature` from `src/lib/signature.ts`, with the
digest primitive passed in as `hmac`. -/
def generateWebhookTestSignature (hmac : String → String → String) (secretKey : String)
    (p : WebhookPayload) (merchantId : Option String) : String :=
  match buildMessage secretKey p merchantId with
  | none => ""
  | some m => hmac secretKey m

-- ─── src/core/http.ts (extractUriPath) ──────────────────────────

/-- Substring search: least position `≥ i` (the position of the head of
`l` being `i`) at which `needle` occurs, JavaScript `indexOf` style. -/
def findStrAux (needle : List Char) : List Char → Nat → Option Nat
  | [], i => if needle.isEmpty then some i else none
  | c :: rest, i =>
    if needle.isPrefixOf (c :: rest) then some i else findStrAux needle rest (i + 1)

/-- JavaScript `hay.indexOf(needle)` (`none` for `-1`). -/
def jsIndexOf (hay needle : List Char) : Option Nat := findStrAux needle hay 0

/-- JavaScript `hay.indexOf(needle, start)` (`none` for `-1`). -/
def jsIndexOfFrom (hay needle : List Char) (start : Nat) : Option Nat :=
  findStrAux needle (hay.drop start) start

/-- `extractUriPath` from `src/core/http.ts`: the portion of the URL from
the first `"/v2"` up to (excluding) the first `'?'` after it, and the
URL's path component otherwise.  `new URL(url).pathname` is a platform
builtin and is passed in as `pathname`. -/
def extractUriPath (pathname : String → String) (url : String) : String :=
  match jsIndexOf url.data ['/', 'v', '2'] with
  | none => pathname url
  | some i =>
    match jsIndexOfFrom url.data ['?'] i with
    | none => ⟨url.data.drop i⟩
    | some q => ⟨(url.data.drop i).take (q - i)⟩

-- ─── Statement vocabulary ───────────────────────────────────────

/-- `needle` occurs in `l` at position `i`. -/
def occursAt (l needle : List Char) (i : Nat) : Prop :=
  needle.isPrefixOf (l.drop i) = true

instance (l needle : List Char) (i : Nat) : Decidable (occursAt l needle i) := by
  unfold occursAt; infer_instance

/-- Some `'.'` in the list is immediately followed by at least one further
character, some later one of which is a decimal digit. -/
def hasDigitAfterDot : List Char → Bool
  | [] => false
  | c :: rest => (c == '.' && rest.any (fun d => d.isDigit)) || hasDigitAfterDot rest

-- ─── Helper lemmas ──────────────────────────────────────────────

theorem sext {a b : String} (h : a.data = b.data) : a = b := by
  cases a; cases b; exact congrArg String.mk h

theorem orZeroIff (a b : Nat) : a ||| b = 0 ↔ a = 0 ∧ b = 0 := by
  constructor
  · intro h
    have hs : ∀ i, a.testBit i = false ∧ b.testBit i = false := by
      intro i
      have h2 := congrArg (fun n => n.testBit i) h
      simpa only [Nat.testBit_lor, Nat.zero_testBit, Bool.or_eq_false_iff] using h2
    constructor
    · exact Nat.eq_of_testBit_eq (fun i => by simp [(hs i).1])
    · exact Nat.eq_of_testBit_eq (fun i => by simp [(hs i).2])
  · rintro ⟨rfl, rfl⟩; rfl

theorem foldOrZero (f : Char × Char → Nat) (l : List (Char × Char)) (acc : Nat) :
    (l.foldl (fun a p => a ||| f p) acc = 0) ↔ (acc = 0 ∧ ∀ p ∈ l, f p = 0) := by
  induction l generalizing acc with
  | nil => simp
  | cons x xs ih =>
    simp only [List.foldl_cons, ih, orZeroIff, List.mem_cons]
    constructor
    · rintro ⟨⟨h1, h2⟩, h3⟩
      exact ⟨h1, fun p hp => hp.elim (fun he => he ▸ h2) (h3 p)⟩
    · rintro ⟨h1, h2⟩
      exact ⟨⟨h1, h2 x (Or.inl rfl)⟩, fun p hp => h2 p (Or.inr hp)⟩

theorem charXorZero (a b : Char) : a.toNat ^^^ b.toNat = 0 ↔ a = b := by
  rw [Nat.xor_eq_zero]
  exact ⟨fun h => Char.eq_of_val_eq (UInt32.toNat.inj h), fun h => by rw [h]⟩

theorem zipEqOfAll {l₁ l₂ : List Char} (hlen : l₁.length = l₂.length)
    (h : ∀ p ∈ l₁.zip l₂, p.1 = p.2) : l₁ = l₂ := by
  induction l₁ generalizing l₂ with
  | nil => cases l₂ with
    | nil => rfl
    | cons b bs => simp at hlen
  | cons a as ih =>
    cases l₂ with
    | nil => simp at hlen
    | cons b bs =>
      have h1 := h (a, b) (by simp)
      simp only [List.length_cons, Nat.succ.injEq] at hlen
      have h2 := ih hlen (fun p hp => h p (by simp [hp]))
      rw [show a = b from h1, h2]

theorem zipSame {l : List Char} {p : Char × Char} (hp : p ∈ l.zip l) : p.1 = p.2 := by
  induction l with
  | nil => simp [List.zip] at hp
  | cons a as ih =>
    rcases List.mem_cons.mp hp with h | h
    · rw [h]
    · exact ih h

theorem timingSafeEqual_iff (a b : String) : timingSafeEqual a b = true ↔ a = b := by
  unfold timingSafeEqual
  by_cases h : a.length = b.length
  · rw [if_pos h, beq_iff_eq, foldOrZero]
    constructor
    · rintro ⟨-, h2⟩
      exact sext (zipEqOfAll h (fun p hp => (charXorZero p.1 p.2).mp (h2 p hp)))
    · rintro rfl
      exact ⟨rfl, fun p hp => (charXorZero p.1 p.2).mpr (zipSame hp)⟩
  · rw [if_neg h]
    constructor
    · intro h2; cases h2
    · rintro rfl; exact absurd rfl h

theorem timingSafeEqual_ne {a b : String} (h : a ≠ b) : timingSafeEqual a b = false := by
  cases he : timingSafeEqual a b
  · rfl
  · exact absurd ((timingSafeEqual_iff a b).mp he) h

theorem dtz_decomp (l : List Char) :
    ∃ n, l = dropTrailingZerosL l ++ List.replicate n '0' := by
  refine ⟨(l.reverse.takeWhile (fun c => c == '0')).length, ?_⟩
  have hsplit := List.takeWhile_append_dropWhile
    (p := fun c => c == '0') (l := l.reverse)
  have hrep : (l.reverse.takeWhile (fun c => c == '0')) =
      List.replicate (l.reverse.takeWhile (fun c => c == '0')).length '0' := by
    apply List.eq_replicate_of_mem
    intro b hb
    exact beq_iff_eq.mp (List.mem_takeWhile_imp (p := fun c => c == '0') hb)
  calc l = l.reverse.reverse := (List.reverse_reverse l).symm
    _ = (l.reverse.takeWhile (fun c => c == '0') ++
          l.reverse.dropWhile (fun c => c == '0')).reverse := by rw [hsplit]
    _ = dropTrailingZerosL l ++ (l.reverse.takeWhile (fun c => c == '0')).reverse := by
          rw [List.reverse_append]; rfl
    _ = _ := by rw [hrep, List.reverse_replicate, List.length_replicate]

theorem headDropWhile {p : Char → Bool} {l : List Char} {c : Char}
    (h : (l.dropWhile p).head? = some c) : p c = false := by
  induction l with
  | nil => simp [List.dropWhile] at h
  | cons a as ih =>
    rw [List.dropWhile_cons] at h
    by_cases hp : p a
    · rw [if_pos hp] at h; exact ih h
    · rw [if_neg hp] at h
      simp only [List.head?_cons, Option.some.injEq] at h
      subst h
      simpa using hp

theorem dtz_getLast (l : List Char) : (dropTrailingZerosL l).getLast? ≠ some '0' := by
  intro h
  unfold dropTrailingZerosL at h
  rw [List.getLast?_reverse] at h
  have := headDropWhile h
  simp at this

theorem dropWhile_replicate_append (n : Nat) (l : List Char) :
    (List.replicate n '0' ++ l).dropWhile (fun c => c == '0') =
      l.dropWhile (fun c => c == '0') := by
  induction n with
  | zero => simp
  | succ k ih => simp [List.replicate_succ, List.dropWhile_cons, ih]

theorem dtz_unique {t : List Char} (n : Nat) (h : t.getLast? ≠ some '0') :
    dropTrailingZerosL (t ++ List.replicate n '0') = t := by
  unfold dropTrailingZerosL
  rw [List.reverse_append, List.reverse_replicate, dropWhile_replicate_append]
  cases ht : t.reverse with
  | nil =>
    have : t = [] := by simpa using congrArg List.reverse ht
    simp [this]
  | cons c cs =>
    have hc : c ≠ '0' := by
      intro hc
      apply h
      rw [← List.head?_reverse, ht, hc]
      rfl
    rw [List.dropWhile_cons, if_neg (by simpa using hc), ← ht, List.reverse_reverse]

theorem dtz_self {t : List Char} (h : t.getLast? ≠ some '0') :
    dropTrailingZerosL t = t := by
  have := dtz_unique 0 h
  simpa using this

theorem dtz_mem {l : List Char} (h : '.' ∈ l) : '.' ∈ dropTrailingZerosL l := by
  obtain ⟨n, hn⟩ := dtz_decomp l
  rw [hn, List.mem_append] at h
  rcases h with h | h
  · exact h
  · exact absurd (List.eq_of_mem_replicate h) (by decide)

theorem joinParams_payment (pid cur : String) (b c : Option String) (pp p : String) :
    joinParams [some pid, some cur, b, c, some pp, some p] [4, 5] =
      pid ++ ":" ++ cur ++ ":" ++ b.getD "" ++ ":" ++ c.getD "" ++ ":"
        ++ stripTrailingZeros pp ++ ":" ++ stripTrailingZeros p := by
  cases b <;> cases c <;>
    · apply sext
      simp [joinParams, joinParamsAux, joinColon, String.data_append, List.append_assoc]

-- ─── C1 ─────────────────────────────────────────────────────────

/-- C1: `verifyPaymentSignature` joins paymentId, currency, basketId,
conversationId, stripTrailingZeros(paidPrice), stripTrailingZeros(price)
with `':'` (missing basketId/conversationId contribute the empty string)
and verifies true exactly when the digest of that message equals the
response's signature; for the documented example fields the canonical
message is `"22416032:TRY:basketId:conversationId:10.5:10.5"`, the digest
of that message verifies true, and any other signature — in particular one
differing in a single character — verifies false. -/
theorem payment_signature_claim (hmac : String → String → String) (sk : String)
    (r : PaymentResponse) :
    (verifyPaymentSignature hmac sk r = true ↔
      hmac sk (r.paymentId ++ ":" ++ r.currency ++ ":" ++ r.basketId.getD "" ++ ":"
        ++ r.conversationId.getD "" ++ ":" ++ stripTrailingZeros r.paidPrice ++ ":"
        ++ stripTrailingZeros r.price) = r.signature)
    ∧ (∀ s2, s2 ≠ hmac sk (r.paymentId ++ ":" ++ r.currency ++ ":" ++ r.basketId.getD ""
        ++ ":" ++ r.conversationId.getD "" ++ ":" ++ stripTrailingZeros r.paidPrice ++ ":"
        ++ stripTrailingZeros r.price) →
        verifyPaymentSignature hmac sk { r with signature := s2 } = false)
    ∧ verifyPaymentSignature hmac sk
        { paymentId := "22416032", currency := "TRY", basketId := some "basketId",
          conversationId := some "conversationId", paidPrice := "10.5", price := "10.5",
          signature := hmac sk "22416032:TRY:basketId:conversationId:10.5:10.5" } = true := by
  have hmsg : ∀ rr : PaymentResponse, verifyPaymentSignature hmac sk rr =
      timingSafeEqual (hmac sk (rr.paymentId ++ ":" ++ rr.currency ++ ":" ++ rr.basketId.getD ""
        ++ ":" ++ rr.conversationId.getD "" ++ ":" ++ stripTrailingZeros rr.paidPrice ++ ":"
        ++ stripTrailingZeros rr.price)) rr.signature := by
    intro rr
    unfold verifyPaymentSignature
    rw [joinParams_payment]
  refine ⟨?_, ?_, ?_⟩
  · rw [hmsg]
    exact timingSafeEqual_iff _ _
  · intro s2 hs2
    rw [hmsg]
    exact timingSafeEqual_ne (fun he => hs2 he.symm)
  · rw [hmsg]
    have hm : ("22416032" : String) ++ ":" ++ "TRY" ++ ":" ++ "basketId" ++ ":"
        ++ "conversationId" ++ ":" ++ stripTrailingZeros "10.5" ++ ":"
        ++ stripTrailingZeros "10.5" = "22416032:TRY:basketId:conversationId:10.5:10.5" := by
      decide
    simp only [hm]
    exact (timingSafeEqual_iff _ _).mpr rfl

/-- Witness for C1: a concrete response whose signature is not the digest
of the canonical message verifies false. -/
theorem payment_signature_claim_witness :
    verifyPaymentSignature (fun _ m => m) "k"
      { paymentId := "22416032", currency := "TRY", basketId := some "basketId",
        conversationId := some "conversationId", paidPrice := "10.5", price := "10.5",
        signature := "deadbeef" } = false :=
  (payment_signature_claim (fun _ m => m) "k"
      { paymentId := "22416032", currency := "TRY", basketId := some "basketId",
        conversationId := some "conversationId", paidPrice := "10.5", price := "10.5",
        signature := "deadbeef" }).2.1 "deadbeef" (by decide)

-- ─── C2 ─────────────────────────────────────────────────────────

/-- C2: `generateAuthHeader` returns exactly `"IYZWSv2 "` followed by the
base64 encoding of `"apiKey:" ++ apiKey ++ "&randomKey:" ++ randomKey ++
"&signature:" ++ sig`, where `sig` is the digest of
`randomKey ++ uriPath ++ body` when a serialized body is present and of
`randomKey ++ uriPath` when it is absent. -/
theorem auth_header_claim (hmac : String → String → String)
    (apiKey sk randomKey uriPath : String) :
    (∀ b : String, generateAuthHeader hmac apiKey sk randomKey uriPath (some b) =
      "IYZWSv2 " ++ base64Encode (("apiKey:" ++ apiKey ++ "&randomKey:" ++ randomKey
        ++ "&signature:" ++ hmac sk (randomKey ++ uriPath ++ b)).data.map Char.toNat))
    ∧ generateAuthHeader hmac apiKey sk randomKey uriPath none =
      "IYZWSv2 " ++ base64Encode (("apiKey:" ++ apiKey ++ "&randomKey:" ++ randomKey
        ++ "&signature:" ++ hmac sk (randomKey ++ uriPath)).data.map Char.toNat) := by
  constructor
  · intro b
    unfold generateAuthHeader btoa
    rw [String.append_assoc randomKey uriPath b]
  · rfl

-- ─── Concrete webhook payloads for witnesses ────────────────────

/-- A concrete subscription-shape webhook payload. -/
def subPayloadX : WebhookPayload :=
  { paymentId := none, paymentConversationId := none, status := none,
    iyziEventType := some "EV", merchantId := none, iyziPaymentId := none,
    token := none, subscriptionReferenceCode := some "SR",
    orderReferenceCode := some "OR", customerReferenceCode := some "CR" }

/-- A concrete direct-shape webhook payload. -/
def directPayloadX : WebhookPayload :=
  { paymentId := some "P", paymentConversationId := some "C", status := some "S",
    iyziEventType := some "E", merchantId := some "M", iyziPaymentId := none,
    token := none, subscriptionReferenceCode := none,
    orderReferenceCode := none, customerReferenceCode := none }

/-- A concrete payload carrying both a `subscriptionReferenceCode` and a
`token` key. -/
def bothPayloadX : WebhookPayload :=
  { paymentId := none, paymentConversationId := some "C", status := some "S",
    iyziEventType := some "EV", merchantId := none, iyziPaymentId := some "I",
    token := some "T", subscriptionReferenceCode := some "SR",
    orderReferenceCode := some "OR", customerReferenceCode := some "CR" }

-- ─── C3 ─────────────────────────────────────────────────────────

/-- C3 counterexample: for a subscription payload with the supplied
merchantId being the empty string, the digest of the claim's canonical
message (`merchantId ++ secretKey ++ …` with `merchantId = ""`) equals the
supplied signature, yet `verifyWebhookSignature` returns false — the
JavaScript falsiness check treats `""` like an absent merchantId. -/
theorem webhook_verify_claim_cex :
    (fun k m => k ++ m) "sk" ("" ++ "sk" ++ "EV" ++ "SR" ++ "OR" ++ "CR") = "skskEVSRORCR"
    ∧ verifyWebhookSignature (fun k m => k ++ m) "sk" subPayloadX "skskEVSRORCR"
        (some "") = false := by
  constructor
  · decide
  · decide

/-- C3 (amended): with a non-empty merchantId for subscription payloads,
the webhook canonical message is built by plain concatenation — subscription
shape: `merchantId ++ secretKey ++ iyziEventType ++ subscriptionReferenceCode
++ orderReferenceCode ++ customerReferenceCode`; otherwise token shape:
`secretKey ++ iyziEventType ++ iyziPaymentId ++ token ++
paymentConversationId ++ status`; otherwise direct shape: `secretKey ++
iyziEventType ++ paymentId ++ paymentConversationId ++ status` — and
`verifyWebhookSignature` returns true iff the digest of that message
equals the supplied signature. -/
theorem webhook_verify_claim (hmac : String → String → String) (sk : String)
    (p : WebhookPayload) (sig : String) (mId : Option String) :
    (∀ m ev sr oc cc, mId = some m → m ≠ "" →
      p.subscriptionReferenceCode = some sr → p.iyziEventType = some ev →
      p.orderReferenceCode = some oc → p.customerReferenceCode = some cc →
      buildMessage sk p mId = some (m ++ sk ++ ev ++ sr ++ oc ++ cc))
    ∧ (∀ tk ev ip pc st, p.subscriptionReferenceCode = none → p.token = some tk →
      p.iyziEventType = some ev → p.iyziPaymentId = some ip →
      p.paymentConversationId = some pc → p.status = some st →
      buildMessage sk p mId = some (sk ++ ev ++ ip ++ tk ++ pc ++ st))
    ∧ (∀ ev pid pc st, p.subscriptionReferenceCode = none → p.token = none →
      p.iyziEventType = some ev → p.paymentId = some pid →
      p.paymentConversationId = some pc → p.status = some st →
      buildMessage sk p mId = some (sk ++ ev ++ pid ++ pc ++ st))
    ∧ (∀ m, buildMessage sk p mId = some m → hmac sk m ≠ "" →
      (verifyWebhookSignature hmac sk p sig mId = true ↔ hmac sk m = sig)) := by
  refine ⟨?_, ?_, ?_, ?_⟩
  · rintro m ev sr oc cc rfl hm hsr hev hoc hcc
    simp [buildMessage, hsr, hev, hoc, hcc, hm, jsStr]
  · intro tk ev ip pc st hsr htk hev hip hpc hst
    simp [buildMessage, hsr, htk, hev, hip, hpc, hst, jsStr]
  · intro ev pid pc st hsr htk hev hpid hpc hst
    simp [buildMessage, hsr, htk, hev, hpid, hpc, hst, jsStr]
  · intro m hb hne
    unfold verifyWebhookSignature
    by_cases hs : sig = ""
    · subst hs
      rw [if_pos rfl]
      constructor
      · intro h; cases h
      · intro h; exact absurd h hne
    · rw [if_neg hs, hb]
      exact timingSafeEqual_iff _ _

/-- Witness for C3: a correctly signed direct-shape webhook verifies true. -/
theorem webhook_verify_claim_witness :
    verifyWebhookSignature (fun _ m => m) "k" directPayloadX "kEPCS" none = true :=
  ((webhook_verify_claim (fun _ m => m) "k" directPayloadX "kEPCS" none).2.2.2
    "kEPCS" (by decide) (by decide)).mpr (by decide)

-- ─── C4 ─────────────────────────────────────────────────────────

/-- C4 counterexample: a third hash-free false exists beyond the claim's
two situations — a subscription payload with the merchantId argument
supplied but equal to `""` and a non-empty signature.  The digest function
here returns the supplied signature for every message, so had a hash been
computed and compared the verification would have returned true; instead
the code returns false, and the test generator returns the empty string
even though a merchantId was supplied. -/
theorem webhook_shortcircuit_cex :
    verifyWebhookSignature (fun _ _ => "D") "k2" subPayloadX "D" (some "") = false
    ∧ generateWebhookTestSignature (fun _ _ => "D") "k2" subPayloadX (some "") = ""
    ∧ ("D" : String) ≠ "" ∧ (some "" : Option String) ≠ none := by
  refine ⟨by decide, by decide, by decide, by decide⟩

/-- C4 (amended): `verifyWebhookSignature` returns false without computing
any hash — the result is the same for every digest function — in exactly
two malformed-input situations: (1) the supplied signature is the empty
string; (2) the payload has subscription shape and the merchantId argument
is absent or the empty string (JavaScript falsiness); in situation (2)
`generateWebhookTestSignature` returns the empty string instead of a
digest.  In every other situation a message is built and the digest is
computed and compared. -/
theorem webhook_shortcircuit_claim (hmac hmacB : String → String → String) (sk : String)
    (p : WebhookPayload) (sig : String) (mId : Option String) :
    (verifyWebhookSignature hmac sk p "" mId = false
      ∧ verifyWebhookSignature hmac sk p "" mId = verifyWebhookSignature hmacB sk p "" mId)
    ∧ (p.subscriptionReferenceCode.isSome → mId.getD "" = "" →
        verifyWebhookSignature hmac sk p sig mId = false
          ∧ generateWebhookTestSignature hmac sk p mId = "")
    ∧ (sig ≠ "" → (p.subscriptionReferenceCode.isSome → mId.getD "" ≠ "") →
        ∃ m, buildMessage sk p mId = some m
          ∧ verifyWebhookSignature hmac sk p sig mId = timingSafeEqual (hmac sk m) sig) := by
  refine ⟨⟨rfl, rfl⟩, ?_, ?_⟩
  · intro hsub hmid
    cases hmi : mId with
    | none => simp [verifyWebhookSignature, generateWebhookTestSignature, buildMessage, hsub]
    | some m =>
      have hm : m = "" := by rw [hmi] at hmid; simpa using hmid
      subst hm
      simp [verifyWebhookSignature, generateWebhookTestSignature, buildMessage, hsub]
  · intro hsig hsub
    have hbs : ∃ mm, buildMessage sk p mId = some mm := by
      by_cases hs : p.subscriptionReferenceCode.isSome
      · have hmne := hsub hs
        cases hmi : mId with
        | none => rw [hmi] at hmne; exact absurd rfl hmne
        | some m =>
          have hm : m ≠ "" := by rw [hmi] at hmne; simpa using hmne
          simp [buildMessage, hs, hm]
      · by_cases ht : p.token.isSome
        · simp [buildMessage, hs, ht]
        · simp [buildMessage, hs, ht]
    obtain ⟨mm, hmm⟩ := hbs
    refine ⟨mm, hmm, ?_⟩
    unfold verifyWebhookSignature
    rw [if_neg hsig, hmm]

/-- Witness for C4: a subscription payload with no merchantId verifies
false and generates the empty test signature. -/
theorem webhook_shortcircuit_claim_witness :
    verifyWebhookSignature (fun _ m => m) "k" subPayloadX "x" none = false
    ∧ generateWebhookTestSignature (fun _ m => m) "k" subPayloadX none = "" :=
  (webhook_shortcircuit_claim (fun _ m => m) (fun _ m => m) "k" subPayloadX "x"
    none).2.1 (by decide) (by decide)

-- ─── C5 ─────────────────────────────────────────────────────────

/-- C5: whenever `generateWebhookTestSignature` returns a non-empty
signature `s`, verifying the same payload and merchantId against `s`
succeeds; and for a subscription-shape payload, as long as the digest is
collision-free on the relevant messages, verifying `s` with any merchantId
different from the one used to generate it fails. -/
theorem buildMessage_subSome (sk : String) (p : WebhookPayload) (m : String)
    (hsub : p.subscriptionReferenceCode.isSome) (hm : m ≠ "") :
    buildMessage sk p (some m) = some (m ++ sk ++ jsStr p.iyziEventType
      ++ jsStr p.subscriptionReferenceCode ++ jsStr p.orderReferenceCode
      ++ jsStr p.customerReferenceCode) := by
  simp [buildMessage, hsub, hm]

theorem buildMessage_subNone (sk : String) (p : WebhookPayload)
    (hsub : p.subscriptionReferenceCode.isSome) :
    buildMessage sk p none = none := by
  unfold buildMessage
  rw [if_pos hsub]

theorem buildMessage_subEmpty (sk : String) (p : WebhookPayload)
    (hsub : p.subscriptionReferenceCode.isSome) :
    buildMessage sk p (some "") = none := by
  simp [buildMessage, hsub]

theorem webhook_roundtrip_claim (hmac : String → String → String) (sk : String)
    (p : WebhookPayload) (mId : Option String) (s : String)
    (hgen : generateWebhookTestSignature hmac sk p mId = s) (hne : s ≠ "") :
    verifyWebhookSignature hmac sk p s mId = true
    ∧ (∀ mId2, p.subscriptionReferenceCode.isSome →
        (∀ m1 m2, hmac sk m1 = hmac sk m2 → m1 = m2) →
        mId2 ≠ mId → verifyWebhookSignature hmac sk p s mId2 = false) := by
  have hbm : ∃ mm, buildMessage sk p mId = some mm ∧ hmac sk mm = s := by
    unfold generateWebhookTestSignature at hgen
    cases hb : buildMessage sk p mId with
    | none => rw [hb] at hgen; exact absurd hgen.symm hne
    | some mm => rw [hb] at hgen; exact ⟨mm, rfl, hgen⟩
  obtain ⟨mm, hmmEq, hmmS⟩ := hbm
  constructor
  · have hts : timingSafeEqual (hmac sk mm) s = true := by
      rw [hmmS]
      exact (timingSafeEqual_iff s s).mpr rfl
    unfold verifyWebhookSignature
    rw [if_neg hne, hmmEq]
    exact hts
  · intro mId2 hsub hinj hne2
    have hmv : ∃ mv, mId = some mv ∧ mv ≠ "" := by
      cases hmi : mId with
      | none =>
        rw [hmi, buildMessage_subNone sk p hsub] at hmmEq
        cases hmmEq
      | some mv =>
        by_cases hv : mv = ""
        · rw [hmi, hv, buildMessage_subEmpty sk p hsub] at hmmEq
          cases hmmEq
        · exact ⟨mv, rfl, hv⟩
    obtain ⟨mv, hmv1, hmv2⟩ := hmv
    have hmsg : mm = mv ++ sk ++ jsStr p.iyziEventType ++ jsStr p.subscriptionReferenceCode
        ++ jsStr p.orderReferenceCode ++ jsStr p.customerReferenceCode := by
      rw [hmv1, buildMessage_subSome sk p mv hsub hmv2] at hmmEq
      exact (Option.some_inj.mp hmmEq).symm
    unfold verifyWebhookSignature
    rw [if_neg hne]
    cases hmi2 : mId2 with
    | none => rw [buildMessage_subNone sk p hsub]
    | some mv2 =>
      by_cases hv2 : mv2 = ""
      · rw [hv2, buildMessage_subEmpty sk p hsub]
      · rw [buildMessage_subSome sk p mv2 hsub hv2]
        have hts : timingSafeEqual (hmac sk (mv2 ++ sk ++ jsStr p.iyziEventType
            ++ jsStr p.subscriptionReferenceCode ++ jsStr p.orderReferenceCode
            ++ jsStr p.customerReferenceCode)) s = false := by
          apply timingSafeEqual_ne
          intro hcoll
          rw [← hmmS] at hcoll
          have heqm := hinj _ _ hcoll
          rw [hmsg] at heqm
          have hd := congrArg String.data heqm
          simp only [String.data_append, List.append_assoc] at hd
          have hvv : mv2.data = mv.data := List.append_cancel_right hd
          exact hne2 (by rw [hmi2, hmv1, sext hvv])
        exact hts

/-- Witness for C5: generating and verifying a subscription webhook
signature round-trips, and a different merchantId fails verification. -/
theorem webhook_roundtrip_claim_witness :
    verifyWebhookSignature (fun _ m => m) "k" subPayloadX "MkEVSRORCR" (some "M") = true
    ∧ verifyWebhookSignature (fun _ m => m) "k" subPayloadX "MkEVSRORCR" (some "N") = false := by
  have h := webhook_roundtrip_claim (fun _ m => m) "k" subPayloadX (some "M")
    "MkEVSRORCR" (by decide) (by decide)
  exact ⟨h.1, h.2 (some "N") (by decide) (fun m1 m2 hm => hm) (by decide)⟩

-- ─── C10 ────────────────────────────────────────────────────────

/-- C10: a payload carrying both a `subscriptionReferenceCode` and a
`token` key is classified as subscription shape — the subscription check
precedes the token check — so the merchantId is required (verification
fails and the generator returns the empty string without it) and the
subscription message rule is used. -/
theorem webhook_precedence_claim (hmac : String → String → String) (sk : String)
    (p : WebhookPayload) (sig : String)
    (hsub : p.subscriptionReferenceCode.isSome) (_htok : p.token.isSome) :
    buildMessage sk p none = none
    ∧ verifyWebhookSignature hmac sk p sig none = false
    ∧ generateWebhookTestSignature hmac sk p none = ""
    ∧ (∀ m ev sr oc cc, m ≠ "" → p.iyziEventType = some ev →
        p.subscriptionReferenceCode = some sr → p.orderReferenceCode = some oc →
        p.customerReferenceCode = some cc →
        buildMessage sk p (some m) = some (m ++ sk ++ ev ++ sr ++ oc ++ cc)
        ∧ generateWebhookTestSignature hmac sk p (some m) =
            hmac sk (m ++ sk ++ ev ++ sr ++ oc ++ cc)) := by
  have hb : buildMessage sk p none = none := by
    unfold buildMessage
    rw [if_pos hsub]
  refine ⟨hb, ?_, ?_, ?_⟩
  · unfold verifyWebhookSignature
    rw [hb]
    by_cases hs : sig = ""
    · rw [if_pos hs]
    · rw [if_neg hs]
  · unfold generateWebhookTestSignature
    rw [hb]
  · intro m ev sr oc cc hm hev hsr hoc hcc
    have hb2 : buildMessage sk p (some m) = some (m ++ sk ++ ev ++ sr ++ oc ++ cc) := by
      simp [buildMessage, hsub, hm, hev, hsr, hoc, hcc, jsStr]
    refine ⟨hb2, ?_⟩
    unfold generateWebhookTestSignature
    rw [hb2]

/-- Witness for C10: the concrete payload carrying both keys follows the
subscription rule. -/
theorem webhook_precedence_claim_witness :
    generateWebhookTestSignature (fun _ m => m) "k" bothPayloadX none = ""
    ∧ generateWebhookTestSignature (fun _ m => m) "k" bothPayloadX (some "M") =
        "MkEVSRORCR" := by
  have h := webhook_precedence_claim (fun _ m => m) "k" bothPayloadX "x"
    (by decide) (by decide)
  refine ⟨h.2.2.1, ?_⟩
  have h2 := (h.2.2.2 "M" "EV" "SR" "OR" "CR" (by decide) (by decide) (by decide)
    (by decide) (by decide)).2
  rw [h2]
  decide

-- ─── C6 / C7 / C8 helper lemmas ─────────────────────────────────

theorem mem_of_getLastEq {l : List Char} {c : Char} (h : l.getLast? = some c) : c ∈ l := by
  have hs := List.dropLast_append_getLast? c h
  rw [← hs]
  simp

theorem trailingZeroStop_succ (l : List Char) (j : Nat) :
    trailingZeroStop l (j + 1) =
      if l.getD (j + 1) ' ' = '0' then trailingZeroStop l j else j + 1 := rfl

theorem loop_stops (l : List Char) (i : Nat) (h : l.getD i ' ' ≠ '0') :
    trailingZeroStop l i = i := by
  cases i with
  | zero => rfl
  | succ j =>
    rw [trailingZeroStop_succ, if_neg h]

theorem loop_through (l : List Char) (i : Nat) :
    ∀ m, i ≤ m → (∀ k, i < k → k ≤ m → l.getD k ' ' = '0') →
      trailingZeroStop l m = trailingZeroStop l i := by
  intro m
  induction m with
  | zero =>
    intro hle h
    have hi : i = 0 := by omega
    rw [hi]
  | succ mm ih =>
    intro hle h
    by_cases he : i = mm + 1
    · rw [he]
    · have h0 : l.getD (mm + 1) ' ' = '0' := h (mm + 1) (by omega) (by omega)
      rw [trailingZeroStop_succ, if_pos h0]
      exact ih (by omega) (fun k hk1 hk2 => h k hk1 (by omega))

theorem getD_getLast (t : List Char) (d : Char) :
    t.getD (t.length - 1) d = (t.getLast?).getD d := by
  rw [List.getD_eq_getElem?_getD, List.getLast?_eq_getElem?]

theorem stop_eq (t : List Char) (n : Nat) (ht : t ≠ []) (hz : t.getLast? ≠ some '0') :
    trailingZeroStop (t ++ List.replicate n '0') ((t ++ List.replicate n '0').length - 1)
      = t.length - 1 := by
  have htl : 0 < t.length := List.length_pos.mpr ht
  have hlen : (t ++ List.replicate n '0').length = t.length + n := by simp
  have hthrough := loop_through (t ++ List.replicate n '0') (t.length - 1)
    ((t ++ List.replicate n '0').length - 1) (by omega) ?_
  · rw [hthrough]
    apply loop_stops
    rw [List.getD_append _ _ _ _ (by omega), getD_getLast]
    obtain ⟨c, hc⟩ : ∃ c, t.getLast? = some c := ⟨t.getLast ht, List.getLast?_eq_getLast t ht⟩
    rw [hc]
    intro hcz
    apply hz
    rw [hc]
    simpa using hcz
  · intro k hk1 hk2
    rw [List.getD_append_right _ _ _ _ (by omega)]
    rw [List.getD_eq_getElem?_getD, List.getElem?_replicate, if_pos (by omega)]
    rfl

theorem take_succ_decomp (t : List Char) (n : Nat) :
    (t ++ List.replicate n '0').take (t.length + 1) = t ++ List.replicate (min 1 n) '0' := by
  cases n with
  | zero => simp [List.take_of_length_le]
  | succ k =>
    rw [List.take_append_eq_append_take, List.take_of_length_le (by omega),
      show t.length + 1 - t.length = 1 by omega, List.replicate_succ]
    simp

theorem strip_eq_of_decomp (s : String) (t : List Char) (n : Nat)
    (hdec : s.data = t ++ List.replicate n '0') (hlast : t.getLast? ≠ some '0')
    (hdot : '.' ∈ s.data) :
    stripTrailingZeros s = if t.getLast? = some '.' then (⟨t.dropLast⟩ : String) else ⟨t⟩ := by
  have hmem : '.' ∈ t := by
    rw [hdec] at hdot
    rcases List.mem_append.mp hdot with h | h
    · exact h
    · exact absurd (List.eq_of_mem_replicate h) (by decide)
  have ht : t ≠ [] := List.ne_nil_of_mem hmem
  have htl : 0 < t.length := List.length_pos.mpr ht
  have hstop : trailingZeroStop s.data (s.data.length - 1) = t.length - 1 := by
    rw [hdec]
    exact stop_eq t n ht hlast
  have hgd : s.data.getD (t.length - 1) ' ' = (t.getLast?).getD ' ' := by
    rw [hdec, List.getD_append _ _ _ _ (by omega)]
    exact getD_getLast t ' '
  obtain ⟨c, hc⟩ : ∃ c, t.getLast? = some c := ⟨t.getLast ht, List.getLast?_eq_getLast t ht⟩
  unfold stripTrailingZeros
  rw [if_pos hdot, hstop, hgd, hc]
  simp only [Option.getD_some]
  by_cases hcc : c = '.'
  · rw [if_pos hcc, if_pos (by rw [hcc])]
    apply sext
    show s.data.take (t.length - 1) = t.dropLast
    rw [hdec, List.take_append_eq_append_take,
      show t.length - 1 - t.length = 0 by omega, List.take_zero, List.append_nil,
      List.dropLast_eq_take]
  · rw [if_neg hcc, if_neg (by simpa using hcc)]
    apply sext
    show s.data.take (t.length - 1 + 1) = t
    rw [show t.length - 1 + 1 = t.length by omega, hdec, List.take_left]

theorem format_eq_of_decomp (s : String) (t : List Char) (n : Nat)
    (hdec : s.data = t ++ List.replicate n '0') (hlast : t.getLast? ≠ some '0')
    (hdot : '.' ∈ s.data) :
    formatPrice s = if t.getLast? = some '.' then
      (⟨t ++ List.replicate (min 1 n) '0'⟩ : String) else ⟨t⟩ := by
  have hmem : '.' ∈ t := by
    rw [hdec] at hdot
    rcases List.mem_append.mp hdot with h | h
    · exact h
    · exact absurd (List.eq_of_mem_replicate h) (by decide)
  have ht : t ≠ [] := List.ne_nil_of_mem hmem
  have htl : 0 < t.length := List.length_pos.mpr ht
  have hstop : trailingZeroStop s.data (s.data.length - 1) = t.length - 1 := by
    rw [hdec]
    exact stop_eq t n ht hlast
  have hgd : s.data.getD (t.length - 1) ' ' = (t.getLast?).getD ' ' := by
    rw [hdec, List.getD_append _ _ _ _ (by omega)]
    exact getD_getLast t ' '
  obtain ⟨c, hc⟩ : ∃ c, t.getLast? = some c := ⟨t.getLast ht, List.getLast?_eq_getLast t ht⟩
  unfold formatPrice
  rw [if_pos hdot, hstop, hgd, hc]
  simp only [Option.getD_some]
  by_cases hcc : c = '.'
  · rw [if_pos hcc, if_pos (by rw [hcc])]
    apply sext
    show s.data.take (t.length - 1 + 2) = t ++ List.replicate (min 1 n) '0'
    rw [show t.length - 1 + 2 = t.length + 1 by omega, hdec]
    exact take_succ_decomp t n
  · rw [if_neg hcc, if_neg (by simpa using hcc)]
    apply sext
    show s.data.take (t.length - 1 + 1) = t
    rw [show t.length - 1 + 1 = t.length by omega, hdec, List.take_left]

theorem strip_model (s : String) (hdot : '.' ∈ s.data) :
    stripTrailingZeros s =
      if (dropTrailingZerosL s.data).getLast? = some '.' then
        (⟨(dropTrailingZerosL s.data).dropLast⟩ : String)
      else ⟨dropTrailingZerosL s.data⟩ := by
  obtain ⟨n, hn⟩ := dtz_decomp s.data
  exact strip_eq_of_decomp s _ n hn (dtz_getLast s.data) hdot

theorem format_model (s : String) (hdot : '.' ∈ s.data) :
    ∃ n, s.data = dropTrailingZerosL s.data ++ List.replicate n '0' ∧
      formatPrice s =
        (if (dropTrailingZerosL s.data).getLast? = some '.' then
          (⟨dropTrailingZerosL s.data ++ List.replicate (min 1 n) '0'⟩ : String)
        else ⟨dropTrailingZerosL s.data⟩) := by
  obtain ⟨n, hn⟩ := dtz_decomp s.data
  exact ⟨n, hn, format_eq_of_decomp s _ n hn (dtz_getLast s.data) hdot⟩

-- ─── C7 ─────────────────────────────────────────────────────────

/-- C7 counterexample: on `"10.."` (two consecutive dots) the removal of
the final decimal point exposes another one, so the result does end in
`'.'`, contradicting the claim's parenthetical. -/
theorem strip_zeros_claim_cex :
    stripTrailingZeros "10.." = "10." ∧ ("10." : String).data.getLast? = some '.' := by
  refine ⟨by decide, by decide⟩

/-- C7 (amended): `stripTrailingZeros` returns a string without `'.'`
unchanged; otherwise it removes the maximal run of trailing `'0'`s and, if
that leaves the decimal point as the last character, removes that decimal
point as well; for inputs containing at most one `'.'` the result never
ends in `'.'` (with consecutive dots, as in `"10.."`, it may); the four
quoted examples hold. -/
theorem strip_zeros_claim (s : String) (t : List Char) (n : Nat) :
    ('.' ∉ s.data → stripTrailingZeros s = s)
    ∧ (s.data = t ++ List.replicate n '0' → t.getLast? ≠ some '0' → '.' ∈ s.data →
        stripTrailingZeros s = if t.getLast? = some '.' then (⟨t.dropLast⟩ : String) else ⟨t⟩)
    ∧ (s.data.count '.' ≤ 1 → (stripTrailingZeros s).data.getLast? ≠ some '.')
    ∧ stripTrailingZeros "10.50" = "10.5" ∧ stripTrailingZeros "10.0" = "10"
    ∧ stripTrailingZeros "10" = "10" ∧ stripTrailingZeros "1.000000" = "1" := by
  refine ⟨?_, strip_eq_of_decomp s t n, ?_, by decide, by decide, by decide, by decide⟩
  · intro hdot
    unfold stripTrailingZeros
    rw [if_neg hdot]
  · intro hcnt
    by_cases hdot : '.' ∈ s.data
    · obtain ⟨n0, hn0⟩ := dtz_decomp s.data
      have hcnt_t : (dropTrailingZerosL s.data).count '.' ≤ 1 := by
        have hc2 : s.data.count '.' =
            (dropTrailingZerosL s.data).count '.' + (List.replicate n0 '0').count '.' := by
          rw [← List.count_append, ← hn0]
        omega
      rw [strip_model s hdot]
      by_cases hl : (dropTrailingZerosL s.data).getLast? = some '.'
      · rw [if_pos hl]
        intro hl2
        have hsplit := List.dropLast_append_getLast? '.' hl
        have hmem : '.' ∈ (dropTrailingZerosL s.data).dropLast := mem_of_getLastEq hl2
        have hc3 : (dropTrailingZerosL s.data).count '.' =
            ((dropTrailingZerosL s.data).dropLast).count '.' + 1 := by
          conv_lhs => rw [← hsplit]
          simp [List.count_append]
        have hc4 : 0 < ((dropTrailingZerosL s.data).dropLast).count '.' :=
          List.count_pos_iff.mpr hmem
        omega
      · rw [if_neg hl]
        exact hl
    · unfold stripTrailingZeros
      rw [if_neg hdot]
      intro hl
      exact hdot (mem_of_getLastEq hl)

/-- Witness for C7: the canonicalized `"10.50"` does not end in a decimal
point. -/
theorem strip_zeros_claim_witness :
    (stripTrailingZeros "10.50").data.getLast? ≠ some '.' :=
  (strip_zeros_claim "10.50" [] 0).2.2.1 (by decide)

-- ─── C6 ─────────────────────────────────────────────────────────

/-- C6 counterexample: on the input `"1.a"` the result of `formatPrice`
contains a decimal point but no digit anywhere after it; and on `"22."`
the result is `"22."` itself — `slice(0, i + 2)` clamps at the string end,
so not even a character follows the decimal point. -/
theorem format_price_claim_cex :
    formatPrice "1.a" = "1.a" ∧ hasDigitAfterDot (formatPrice "1.a").data = false
    ∧ formatPrice "22." = "22." := by
  refine ⟨by decide, by decide, by decide⟩

/-- C6 (amended): for every input the result of `formatPrice` contains a
decimal point, and for every input that does not already end in `'.'` the
result contains a decimal point with at least one character after it (a
digit for digits-and-dots inputs; `"1.a"` keeps the letter); an input
ending in `'.'` is returned unchanged because `slice(0, i + 2)` clamps at
the string end; an input with no `'.'` gets `".0"` appended; an input with
a `'.'` has its trailing `'0'`s stripped, except that if stripping reaches
the decimal point one `'0'` is kept after it when one was stripped; the
five quoted examples hold. -/
theorem format_price_claim (s : String) (t : List Char) (n : Nat) :
    '.' ∈ (formatPrice s).data
    ∧ (s.data.getLast? ≠ some '.' → '.' ∈ (formatPrice s).data.dropLast)
    ∧ (s.data.getLast? = some '.' → formatPrice s = s)
    ∧ ('.' ∉ s.data → formatPrice s = s ++ ".0")
    ∧ (s.data = t ++ List.replicate n '0' → t.getLast? ≠ some '0' → '.' ∈ s.data →
        formatPrice s = if t.getLast? = some '.' then
          (⟨t ++ List.replicate (min 1 n) '0'⟩ : String) else ⟨t⟩)
    ∧ formatPrice "22" = "22.0" ∧ formatPrice "22.00" = "22.0"
    ∧ formatPrice "15.340000" = "15.34" ∧ formatPrice "23.00450067" = "23.00450067"
    ∧ formatPrice "1.000000" = "1.0" := by
  refine ⟨?_, ?_, ?_, ?_, format_eq_of_decomp s t n,
    by decide, by decide, by decide, by decide, by decide⟩
  · by_cases hdot : '.' ∈ s.data
    · have hm := dtz_mem hdot
      obtain ⟨n2, hn2, hfp⟩ := format_model s hdot
      rw [hfp]
      by_cases hl : (dropTrailingZerosL s.data).getLast? = some '.'
      · rw [if_pos hl]
        show '.' ∈ dropTrailingZerosL s.data ++ List.replicate (min 1 n2) '0'
        exact List.mem_append.mpr (Or.inl hm)
      · rw [if_neg hl]
        exact hm
    · unfold formatPrice
      rw [if_neg hdot]
      rw [String.data_append]
      simp
  · intro hlast
    by_cases hdot : '.' ∈ s.data
    · have hm := dtz_mem hdot
      obtain ⟨n2, hn2, hfp⟩ := format_model s hdot
      by_cases hl : (dropTrailingZerosL s.data).getLast? = some '.'
      · cases n2 with
        | zero =>
          exfalso
          apply hlast
          rw [show s.data = dropTrailingZerosL s.data by simpa using hn2]
          exact hl
        | succ k =>
          have hmin : List.replicate (min 1 (k + 1)) '0' = ['0'] := by
            rw [Nat.min_eq_left (by omega), List.replicate_one]
          rw [hfp, if_pos hl, hmin]
          show '.' ∈ (dropTrailingZerosL s.data ++ ['0']).dropLast
          rw [List.dropLast_concat]
          exact hm
      · rw [hfp, if_neg hl]
        show '.' ∈ (dropTrailingZerosL s.data).dropLast
        have hne : dropTrailingZerosL s.data ≠ [] := List.ne_nil_of_mem hm
        have hgl := List.getLast?_eq_getLast _ hne
        have hsplit := List.dropLast_append_getLast hne
        rw [← hsplit] at hm
        rcases List.mem_append.mp hm with h | h
        · exact h
        · exfalso
          apply hl
          rw [hgl]
          simpa using (List.mem_singleton.mp h).symm
    · unfold formatPrice
      rw [if_neg hdot]
      have h0 : (s ++ ".0").data = (s.data ++ ['.']) ++ ['0'] := by
        rw [String.data_append]
        simp
      rw [h0, List.dropLast_concat]
      simp
  · intro hlast
    have hdot : '.' ∈ s.data := mem_of_getLastEq hlast
    have hz : s.data.getLast? ≠ some '0' := by
      rw [hlast]
      decide
    have hfix : dropTrailingZerosL s.data = s.data := dtz_self hz
    obtain ⟨n2, hn2, hfp⟩ := format_model s hdot
    have hn0 : n2 = 0 := by
      rw [hfix] at hn2
      have hlen := congrArg List.length hn2
      simp at hlen
      omega
    rw [hfp, if_pos (by rw [hfix]; exact hlast), hn0]
    apply sext
    show dropTrailingZerosL s.data ++ List.replicate (min 1 0) '0' = s.data
    rw [hfix]
    simp
  · intro hdot
    unfold formatPrice
    rw [if_neg hdot]

/-- Witness for C6: the formatted `"7"` contains a non-final decimal
point. -/
theorem format_price_claim_witness :
    '.' ∈ (formatPrice "7").data.dropLast :=
  (format_price_claim "7" [] 0).2.1 (by decide)

-- ─── C8 ─────────────────────────────────────────────────────────

/-- C8 counterexample: `stripTrailingZeros` is not idempotent on
`"1.0.0"` — the first pass yields `"1.0"`, the second `"1"`. -/
theorem idempotence_claim_cex :
    stripTrailingZeros (stripTrailingZeros "1.0.0") ≠ stripTrailingZeros "1.0.0" := by
  decide

/-- C8 (amended): `formatPrice` is idempotent on every string;
`stripTrailingZeros` is idempotent on every string containing at most one
`'.'` (with several dots, as in `"1.0.0"`, removing the final decimal
point can expose further trailing zeros for a second pass). -/
theorem idempotence_claim (s : String) :
    formatPrice (formatPrice s) = formatPrice s
    ∧ (s.data.count '.' ≤ 1 →
        stripTrailingZeros (stripTrailingZeros s) = stripTrailingZeros s) := by
  constructor
  · by_cases hdot : '.' ∈ s.data
    · have hz := dtz_getLast s.data
      have hm := dtz_mem hdot
      obtain ⟨n, hn, hfp⟩ := format_model s hdot
      by_cases hl : (dropTrailingZerosL s.data).getLast? = some '.'
      · rw [hfp, if_pos hl]
        cases n with
        | zero =>
          have hX : (⟨dropTrailingZerosL s.data ++ List.replicate (min 1 0) '0'⟩ : String)
              = s := by
            apply sext
            show dropTrailingZerosL s.data ++ List.replicate (min 1 0) '0' = s.data
            simpa using hn.symm
          rw [hX, hfp, if_pos hl]
          exact hX
        | succ k =>
          have hmin : List.replicate (min 1 (k + 1)) '0' = ['0'] := by
            rw [Nat.min_eq_left (by omega), List.replicate_one]
          rw [hmin]
          have hdot2 : '.' ∈ (⟨dropTrailingZerosL s.data ++ ['0']⟩ : String).data :=
            List.mem_append.mpr (Or.inl hm)
          obtain ⟨n2, hn2, hfp2⟩ := format_model _ hdot2
          have hud : dropTrailingZerosL ((⟨dropTrailingZerosL s.data ++ ['0']⟩ : String).data)
              = dropTrailingZerosL s.data := by
            show dropTrailingZerosL (dropTrailingZerosL s.data ++ List.replicate 1 '0')
              = dropTrailingZerosL s.data
            exact dtz_unique 1 hz
          rw [hud] at hn2 hfp2
          have hn2v : n2 = 1 := by
            have hlen := congrArg List.length hn2
            simp at hlen
            omega
          rw [hfp2, if_pos hl, hn2v, Nat.min_self, List.replicate_one]
      · rw [hfp, if_neg hl]
        have hdot2 : '.' ∈ (⟨dropTrailingZerosL s.data⟩ : String).data := hm
        obtain ⟨n2, hn2, hfp2⟩ := format_model _ hdot2
        have hud : dropTrailingZerosL ((⟨dropTrailingZerosL s.data⟩ : String).data)
            = dropTrailingZerosL s.data := dtz_self hz
        rw [hud] at hfp2
        rw [hfp2, if_neg hl]
    · have h1 : formatPrice s = s ++ ".0" := by
        unfold formatPrice
        rw [if_neg hdot]
      rw [h1]
      have hdata : (s ++ ".0").data = (s.data ++ ['.']) ++ List.replicate 1 '0' := by
        rw [String.data_append]
        simp
      have hdot2 : '.' ∈ (s ++ ".0").data := by
        rw [hdata]
        simp
      obtain ⟨n2, hn2, hfp2⟩ := format_model _ hdot2
      have hud : dropTrailingZerosL ((s ++ ".0").data) = s.data ++ ['.'] := by
        rw [hdata]
        exact dtz_unique 1 (by rw [List.getLast?_concat]; decide)
      rw [hud] at hn2 hfp2
      have hl2 : (s.data ++ ['.']).getLast? = some '.' := List.getLast?_concat _
      have hn2v : n2 = 1 := by
        rw [hdata] at hn2
        have hlen := congrArg List.length hn2
        simp at hlen
        omega
      rw [hfp2, if_pos hl2, hn2v]
      apply sext
      show (s.data ++ ['.']) ++ List.replicate (min 1 1) '0' = (s ++ ".0").data
      rw [hdata, Nat.min_self]
  · intro hcnt
    by_cases hdot : '.' ∈ s.data
    · obtain ⟨n0, hn0⟩ := dtz_decomp s.data
      have hz := dtz_getLast s.data
      have hm := dtz_mem hdot
      have hcnt_t : (dropTrailingZerosL s.data).count '.' ≤ 1 := by
        have hc2 : s.data.count '.' =
            (dropTrailingZerosL s.data).count '.' + (List.replicate n0 '0').count '.' := by
          rw [← List.count_append, ← hn0]
        omega
      rw [strip_model s hdot]
      by_cases hl : (dropTrailingZerosL s.data).getLast? = some '.'
      · rw [if_pos hl]
        have hsplit := List.dropLast_append_getLast? '.' hl
        have hc3 : (dropTrailingZerosL s.data).count '.' =
            ((dropTrailingZerosL s.data).dropLast).count '.' + 1 := by
          conv_lhs => rw [← hsplit]
          simp [List.count_append]
        have hnomem : '.' ∉ (dropTrailingZerosL s.data).dropLast := by
          intro hmem
          have := List.count_pos_iff.mpr hmem
          omega
        unfold stripTrailingZeros
        rw [if_neg (show ¬ ('.' ∈ (⟨(dropTrailingZerosL s.data).dropLast⟩ : String).data)
          from hnomem)]
      · rw [if_neg hl]
        have hdot2 : '.' ∈ (⟨dropTrailingZerosL s.data⟩ : String).data := hm
        rw [strip_model _ hdot2]
        have hud : dropTrailingZerosL ((⟨dropTrailingZerosL s.data⟩ : String).data)
            = dropTrailingZerosL s.data := dtz_self hz
        rw [hud, if_neg hl]
    · unfold stripTrailingZeros
      rw [if_neg hdot, if_neg hdot]

/-- Witness for C8: a concrete instance of the idempotence pair. -/
theorem idempotence_claim_witness :
    stripTrailingZeros (stripTrailingZeros "12.30") = stripTrailingZeros "12.30" :=
  (idempotence_claim "12.30").2 (by decide)

-- ─── C9 helper lemmas ───────────────────────────────────────────

theorem notOccurs_eq_false {l needle : List Char} {d : Nat}
    (h : ¬ occursAt l needle d) : needle.isPrefixOf (l.drop d) = false := by
  unfold occursAt at h
  cases hb : needle.isPrefixOf (l.drop d)
  · rfl
  · exact absurd hb h

theorem findStrAux_some {needle l : List Char} {i j : Nat}
    (h : findStrAux needle l i = some j) :
    ∃ d, j = i + d ∧ needle.isPrefixOf (l.drop d) = true
      ∧ ∀ e, e < d → needle.isPrefixOf (l.drop e) = false := by
  induction l generalizing i with
  | nil =>
    unfold findStrAux at h
    by_cases hn : needle.isEmpty
    · rw [if_pos hn] at h
      obtain rfl : i = j := Option.some_inj.mp h
      refine ⟨0, by omega, ?_, by omega⟩
      rw [List.drop_nil]
      cases needle with
      | nil => rfl
      | cons a as => simp [List.isEmpty] at hn
    · rw [if_neg hn] at h
      cases h
  | cons c rest ih =>
    unfold findStrAux at h
    by_cases hp : needle.isPrefixOf (c :: rest)
    · rw [if_pos hp] at h
      obtain rfl : i = j := Option.some_inj.mp h
      exact ⟨0, by omega, by simpa using hp, by omega⟩
    · rw [if_neg hp] at h
      obtain ⟨d, hd1, hd2, hd3⟩ := ih h
      refine ⟨d + 1, by omega, by simpa using hd2, ?_⟩
      intro e he
      cases e with
      | zero =>
        show needle.isPrefixOf ((c :: rest).drop 0) = false
        cases hb : needle.isPrefixOf ((c :: rest).drop 0)
        · rfl
        · exact absurd (by simpa using hb) hp
      | succ e2 => simpa using hd3 e2 (by omega)

theorem findStrAux_complete {needle l : List Char} (d i : Nat)
    (h1 : needle.isPrefixOf (l.drop d) = true)
    (h2 : ∀ e, e < d → needle.isPrefixOf (l.drop e) = false) :
    findStrAux needle l i = some (i + d) := by
  induction l generalizing i d with
  | nil =>
    rw [List.drop_nil] at h1
    have hn : needle.isEmpty = true := by
      cases needle with
      | nil => rfl
      | cons a as => cases h1
    have hd0 : d = 0 := by
      by_contra hne
      have hz := h2 0 (Nat.pos_of_ne_zero hne)
      rw [List.drop_nil, h1] at hz
      cases hz
    subst hd0
    unfold findStrAux
    rw [if_pos hn, Nat.add_zero]
  | cons c rest ih =>
    cases d with
    | zero =>
      unfold findStrAux
      rw [if_pos (by simpa using h1), Nat.add_zero]
    | succ d2 =>
      have hp0 : needle.isPrefixOf (c :: rest) = false := by
        simpa using h2 0 (Nat.succ_pos d2)
      unfold findStrAux
      rw [if_neg (by simp [hp0])]
      have hrec := ih d2 (i + 1) (by simpa using h1)
        (fun e he => by simpa using h2 (e + 1) (by omega))
      rw [hrec]
      congr 1
      omega

-- ─── C9 ─────────────────────────────────────────────────────────

/-- C9: when the URL contains `"/v2"`, the URI path used for signing is
the substring starting at the first occurrence of `"/v2"` and extending up
to but excluding the first `'?'` at or after it (to the end of the URL if
there is none); otherwise it is the URL's path component, obtained from
the platform URL parser. -/
theorem extract_uri_path_claim (f : String → String) (url : String) :
    ((∀ d, ¬ occursAt url.data ['/', 'v', '2'] d) → extractUriPath f url = f url)
    ∧ (∀ i, occursAt url.data ['/', 'v', '2'] i →
        (∀ j, j < i → ¬ occursAt url.data ['/', 'v', '2'] j) →
        ((∀ q, i ≤ q → ¬ occursAt url.data ['?'] q) →
            extractUriPath f url = ⟨url.data.drop i⟩)
        ∧ (∀ q, i ≤ q → occursAt url.data ['?'] q →
            (∀ k, i ≤ k → k < q → ¬ occursAt url.data ['?'] k) →
            extractUriPath f url = ⟨(url.data.drop i).take (q - i)⟩)) := by
  constructor
  · intro h
    unfold extractUriPath
    cases hf : jsIndexOf url.data ['/', 'v', '2'] with
    | none => rfl
    | some j =>
      obtain ⟨d, hd1, hd2, hd3⟩ := findStrAux_some hf
      rw [notOccurs_eq_false (h d)] at hd2
      cases hd2
  · intro i hi hmin
    have hfound : jsIndexOf url.data ['/', 'v', '2'] = some i := by
      have hc := findStrAux_complete i 0 hi (fun e he => notOccurs_eq_false (hmin e he))
      simpa using hc
    constructor
    · intro hq
      have hnone : jsIndexOfFrom url.data ['?'] i = none := by
        unfold jsIndexOfFrom
        cases hfa : findStrAux ['?'] (url.data.drop i) i with
        | none => rfl
        | some q =>
          obtain ⟨d, hd1, hd2, hd3⟩ := findStrAux_some hfa
          exfalso
          apply hq (i + d) (by omega)
          unfold occursAt
          rw [show url.data.drop (i + d) = (url.data.drop i).drop d by
            rw [List.drop_drop]]
          exact hd2
      simp only [extractUriPath, hfound, hnone]
    · intro q hiq hq hminq
      have hsome : jsIndexOfFrom url.data ['?'] i = some q := by
        unfold jsIndexOfFrom
        have h1 : (['?'] : List Char).isPrefixOf ((url.data.drop i).drop (q - i)) = true := by
          rw [show ((url.data.drop i).drop (q - i)) = url.data.drop q by
            rw [List.drop_drop]; congr 1; omega]
          exact hq
        have h2 : ∀ e, e < q - i → (['?'] : List Char).isPrefixOf
            ((url.data.drop i).drop e) = false := by
          intro e he
          rw [show ((url.data.drop i).drop e) = url.data.drop (i + e) by
            rw [List.drop_drop]]
          exact notOccurs_eq_false (hminq (i + e) (by omega) (by omega))
        have hc := findStrAux_complete (q - i) i h1 h2
        rw [hc]
        congr 1
        omega
      simp only [extractUriPath, hfound, hsome]

/-- Witness for C9: the signing path of a URL with a `/v2` segment and a
query string is the segment between them. -/
theorem extract_uri_path_claim_witness :
    extractUriPath (fun _ => "") "a.co/v2/x?q" = "/v2/x" := by
  have h := ((extract_uri_path_claim (fun _ => "") "a.co/v2/x?q").2 4
    (by decide) (by decide)).2 9 (by decide) (by decide) (by decide)
  rw [h]
  decide

end IyzicoJS
